import Mathlib

/-!
Verification development for the Texas Hold'em engine in `poker_server.py`.

The Python source is shallowly embedded below.  Python's unbounded signed
integers are modelled by `Int` (chip amounts, bets) and list indices by `Nat`.
Python dicts with insertion order (`GameRoom.players`) are modelled as lists
kept in insertion order; object mutation through a reference held in the dict
is modelled by updating the list entry with the matching id (ids are unique by
construction of `add_player`, and the dataclass `!=` comparisons in the source
distinguish players by their distinct ids).  `random.shuffle` is modelled by
taking the already-shuffled deck as an explicit argument; `Deck.deal` pops the
last card of the list, as `list.pop()` does.
-/

namespace Poker

/-- `Suit` enum from the source. -/
inductive Suit
  | hearts | diamonds | clubs | spades
deriving DecidableEq, Repr, Inhabited

/-- `Rank` enum from the source, in declaration order TWO … ACE. -/
inductive Rank
  | two | three | four | five | six | seven | eight | nine | ten
  | jack | queen | king | ace
deriving DecidableEq, Repr, Inhabited

/-- `HandEvaluator.RANK_VALUES`: the index of each rank in enum order. -/
def rankValue : Rank → Nat
  | .two => 0 | .three => 1 | .four => 2 | .five => 3 | .six => 4
  | .seven => 5 | .eight => 6 | .nine => 7 | .ten => 8
  | .jack => 9 | .queen => 10 | .king => 11 | .ace => 12

/-- `Card` dataclass. -/
structure Card where
  suit : Suit
  rank : Rank
deriving DecidableEq, Repr, Inhabited

/-- `sorted(xs, reverse=True)` on natural numbers. -/
def sortDescNat (l : List Nat) : List Nat :=
  l.insertionSort (fun a b => b ≤ a)

/-- `sorted(xs)` on natural numbers. -/
def sortAscNat (l : List Nat) : List Nat :=
  l.insertionSort (fun a b => a ≤ b)

/-- Python's `>` on integer lists (lexicographic, longer list wins on a
common prefix). -/
def listGtNat : List Nat → List Nat → Bool
  | _ :: _, [] => true
  | [], _ => false
  | a :: as, b :: bs =>
    if b < a then true else if a < b then false else listGtNat as bs

/-- Python's `>` on the `(hand_rank, tiebreaker)` pairs used by the
evaluator (tuple comparison). -/
def keyGt (x y : Nat × List Nat) : Bool :=
  y.1 < x.1 || (x.1 == y.1 && listGtNat x.2 y.2)

/-- `HandEvaluator._is_straight`.  `sorted(set(ranks))` is modelled by
`sortAscNat ranks.dedup` (same distinct values, ascending). -/
def isStraight (ranks : List Nat) : Bool :=
  let u := sortAscNat ranks.dedup
  if u.length < 5 then false
  else if (List.range (u.length - 4)).any
      (fun i => u.getD (i + 4) 0 - u.getD i 0 == 4) then true
  else if (u.filter (fun r => r ∈ ([0, 1, 2, 3, 4, 12] : List Nat))) ≠ [] then
    (u.filter (fun r => r ∈ ([12, 0, 1, 2, 3] : List Nat))).length == 5
  else false

/-- `HandEvaluator._evaluate_five_cards`.  The dict `rank_counts` iterates its
keys in first-insertion order, i.e. in the order distinct values appear in the
descending-sorted `ranks`; duplicates are adjacent there, so `ranks.dedup`
produces exactly that key order. -/
def evaluateFiveCards (cards : List Card) : Nat × List Nat :=
  let ranks := sortDescNat (cards.map (fun c => rankValue c.rank))
  let suits := cards.map (·.suit)
  let keys := ranks.dedup
  let counts := sortDescNat (keys.map (fun r => ranks.count r))
  let isFlush := suits.dedup.length == 1
  let isStr := isStraight ranks
  if isStr && isFlush && (ranks.headD 0 == rankValue .ace) then
    (9, ranks)
  else if isStr && isFlush then
    (8, ranks)
  else if counts = [4, 1] then
    let four := (keys.filter (fun r => ranks.count r = 4)).headD 0
    let kicker := (keys.filter (fun r => ranks.count r = 1)).headD 0
    (7, [four, kicker])
  else if counts = [3, 2] then
    let three := (keys.filter (fun r => ranks.count r = 3)).headD 0
    let two := (keys.filter (fun r => ranks.count r = 2)).headD 0
    (6, [three, two])
  else if isFlush then
    (5, ranks)
  else if isStr then
    (4, ranks)
  else if counts = [3, 1, 1] then
    let three := (keys.filter (fun r => ranks.count r = 3)).headD 0
    let kickers := sortDescNat (keys.filter (fun r => ranks.count r = 1))
    (3, three :: kickers)
  else if counts = [2, 2, 1] then
    let pairs := sortDescNat (keys.filter (fun r => ranks.count r = 2))
    let kicker := (keys.filter (fun r => ranks.count r = 1)).headD 0
    (2, pairs ++ [kicker])
  else if counts = [2, 1, 1, 1] then
    let pair := (keys.filter (fun r => ranks.count r = 2)).headD 0
    let kickers := sortDescNat (keys.filter (fun r => ranks.count r = 1))
    (1, pair :: kickers)
  else
    (0, ranks)

/-- `HandEvaluator.evaluate_hand`.  `itertools.combinations(cards, 5)`
enumerates every length-5 subsequence once, as `List.sublistsLen 5` does;
the running best is updated exactly on the source's strict comparison. -/
def evaluateHand (cards : List Card) : Nat × List Nat :=
  if cards.length < 5 then (0, [])
  else
    (cards.sublistsLen 5).foldl
      (fun best combo =>
        let e := evaluateFiveCards combo
        if keyGt e best then e else best)
      (0, [])

/-- `GameStage` enum. -/
inductive GameStage
  | waiting | preFlop | flop | turn | river | showdown | finished
deriving DecidableEq, Repr, Inhabited

/-- `Player` dataclass. -/
structure Player where
  id : String
  name : String
  chips : Int := 1000
  currentBet : Int := 0
  hasActed : Bool := false
  isAllIn : Bool := false
  folded : Bool := false
  holeCards : List Card := []
  position : Int := -1
deriving DecidableEq, Repr, Inhabited

/-- `Player.bet`: returns the mutated player and the `actual_bet` result. -/
def Player.bet (p : Player) (amount : Int) : Player × Int :=
  let actual := min amount p.chips
  let p' := { p with chips := p.chips - actual, currentBet := p.currentBet + actual }
  let p'' := if p'.chips = 0 then { p' with isAllIn := true } else p'
  (p'', actual)

/-- The dictionary produced by `Player.to_dict` (hole cards are kept as
`Card` values; the source additionally renders each card to a string, which
is presentation only). -/
structure PlayerView where
  id : String
  name : String
  chips : Int
  currentBet : Int
  hasActed : Bool
  isAllIn : Bool
  folded : Bool
  holeCards : List Card
  position : Int
  totalChips : Int
deriving DecidableEq, Repr

/-- `Player.to_dict`: `hole_cards` is `[] if hide_cards and self.hole_cards
else [str(card) for card in self.hole_cards]`. -/
def Player.toDict (p : Player) (hideCards : Bool) : PlayerView :=
  { id := p.id
    name := p.name
    chips := p.chips
    currentBet := p.currentBet
    hasActed := p.hasActed
    isAllIn := p.isAllIn
    folded := p.folded
    holeCards := if hideCards ∧ p.holeCards ≠ [] then [] else p.holeCards
    position := p.position
    totalChips := p.chips + p.currentBet }

/-- `GameRoom` state.  `deck = None` before the first hand is modelled by the
empty list (it is never drawn from while `stage = WAITING`). -/
structure Room where
  roomId : String
  players : List Player
  dealerPosition : Nat
  currentBet : Int
  pot : Int
  communityCards : List Card
  stage : GameStage
  deck : List Card
  smallBlind : Int
  bigBlind : Int
  actionPlayerIndex : Nat
  lastRaiseAmount : Int
deriving DecidableEq, Repr, Inhabited

/-- `GameRoom.__init__`. -/
def mkRoom (roomId : String) (smallBlind : Int := 10) (bigBlind : Int := 20) : Room :=
  { roomId := roomId
    players := []
    dealerPosition := 0
    currentBet := 0
    pot := 0
    communityCards := []
    stage := .waiting
    deck := []
    smallBlind := smallBlind
    bigBlind := bigBlind
    actionPlayerIndex := 0
    lastRaiseAmount := bigBlind }

/-- `max_players = 9`. -/
def maxPlayers : Nat := 9

/-- `GameRoom.add_player`. -/
def addPlayer (r : Room) (playerId name : String) : Bool × Room :=
  if maxPlayers ≤ r.players.length then (false, r)
  else if r.players.any (fun p => p.id = playerId) then (false, r)
  else
    let position : Int := r.players.length
    (true, { r with players :=
      r.players ++ [{ id := playerId, name := name, position := position }] })

/-- `self.pot = sum(p.current_bet for p in self.players.values())`. -/
def roomSumBets (r : Room) : Int := (r.players.map (·.currentBet)).sum

/-- Mutation of the player object aliased in the `players` dict, addressed by
its (unique) id. -/
def updateById (ps : List Player) (pid : String) (f : Player → Player) : List Player :=
  ps.map (fun q => if q.id = pid then f q else q)

/-- `Deck.deal`: `self.cards.pop()` removes and returns the last card. -/
def dealOne (d : List Card) : Card × List Card :=
  (d.getLast!, d.dropLast)

/-- One pass of `for player in self.players.values():
player.hole_cards.append(self.deck.deal())`. -/
def dealRound : List Player → List Card → List Player × List Card
  | [], d => ([], d)
  | p :: ps, d =>
    let (c, d') := dealOne d
    let (ps', d'') := dealRound ps d'
    ({ p with holeCards := p.holeCards ++ [c] } :: ps', d'')

/-- `GameRoom.start_hand`.  The freshly shuffled `Deck()` is passed in as
`freshDeck`.  `min_players_to_start = 2`; the `len(players_list) >= 2` guard
around the blinds is implied by the initial check. -/
def startHand (r : Room) (freshDeck : List Card) : Bool × Room :=
  if r.players.length < 2 then (false, r)
  else
    let ps0 := r.players.map (fun p =>
      { p with currentBet := 0, hasActed := false, folded := false,
               isAllIn := false, holeCards := [] })
    let (ps1, d1) := dealRound ps0 freshDeck
    let (ps2, d2) := dealRound ps1 d1
    let n := ps2.length
    let sbIdx := r.dealerPosition % n
    let bbIdx := (r.dealerPosition + 1) % n
    let (sb1, _) := (ps2.getD sbIdx default).bet r.smallBlind
    let ps3 := ps2.set sbIdx sb1
    let (bb1, bbAmt) := (ps3.getD bbIdx default).bet r.bigBlind
    let ps4 := ps3.set bbIdx bb1
    (true,
      { r with stage := .preFlop, deck := d2, communityCards := [],
               currentBet := bbAmt, lastRaiseAmount := r.bigBlind,
               players := ps4,
               actionPlayerIndex := (r.dealerPosition + 2) % n,
               pot := (ps4.map (·.currentBet)).sum })

/-- `GameRoom._needs_action`. -/
def needsAction (r : Room) (p : Player) : Prop :=
  ¬p.folded = true ∧ ¬p.isAllIn = true ∧
    (p.currentBet < r.currentBet ∨ ¬p.hasActed = true)

instance (r : Room) (p : Player) : Decidable (needsAction r p) := by
  unfold needsAction; infer_instance

/-- `GameRoom._move_to_next_player`. -/
def moveToNextPlayer (r : Room) : Room :=
  let active := r.players.filter (fun q => ¬q.folded)
  if active.isEmpty then r
  else { r with actionPlayerIndex := (r.actionPlayerIndex + 1) % r.players.length }

/-- `GameRoom._betting_round_complete`.  `len(set(bets)) == 1` is
`bets.dedup.length = 1`. -/
def bettingRoundComplete (r : Room) : Bool :=
  let active := r.players.filter (fun q => ¬q.folded)
  if active.length ≤ 1 then true
  else
    let acted := (active.filter (fun p => p.hasActed || p.isAllIn)).length
    if acted < active.length then false
    else
      let bets := (active.filter (fun p => ¬p.isAllIn)).map (·.currentBet)
      if bets.isEmpty then true
      else bets.dedup.length == 1

/-- The key `(hand_rank, tiebreaker)` a player brings to showdown. -/
def handKey (community : List Card) (p : Player) : Nat × List Nat :=
  evaluateHand (p.holeCards ++ community)

/-- The sorted result of `player_hands.sort(key=..., reverse=True)`: a stable
descending sort of the non-folded players by their hand key (Python's sort is
stable, also with `reverse=True`). -/
def sortedShowdown (r : Room) : List Player :=
  (r.players.filter (fun q => ¬q.folded)).insertionSort
    (fun a b => keyGt (handKey r.communityCards b) (handKey r.communityCards a) = false)

/-- The winner set: every (non-folded) player tied with the best key, in
sorted order. -/
def winnersOf (r : Room) : List Player :=
  match sortedShowdown r with
  | [] => []
  | best :: _ =>
    (sortedShowdown r).filter
      (fun p => handKey r.communityCards p = handKey r.communityCards best)

/-- `GameRoom._determine_winner`.  Python's `//` and `%` are floor division
and floor modulus on signed integers: `Int.fdiv` / `Int.fmod`. -/
def determineWinner (r : Room) : Room :=
  let active := r.players.filter (fun q => ¬q.folded)
  if active.length = 0 then { r with stage := .finished }
  else
    let ws := winnersOf r
    let potPerWinner := r.pot.fdiv ws.length
    let remainder := r.pot.fmod ws.length
    let ps := ws.enum.foldl
      (fun acc iw => updateById acc iw.2.id
        (fun q => { q with chips :=
          q.chips + (potPerWinner + if iw.1 = 0 then remainder else 0) }))
      r.players
    { r with players := ps, stage := .finished,
             dealerPosition :=
               if 0 < ps.length then (r.dealerPosition + 1) % ps.length
               else r.dealerPosition,
             pot := 0 }

/-- The trailing reset block of `_advance_stage` (reached for every
non-terminal advance and for stages with no dealing branch). -/
def resetRound (r : Room) : Room :=
  { r with currentBet := 0, lastRaiseAmount := r.bigBlind,
           actionPlayerIndex := (r.dealerPosition + 1) % r.players.length }

/-- `GameRoom._advance_stage`. -/
def advanceStage (r : Room) : Room :=
  let sweptPot := r.pot + roomSumBets r
  let ps := r.players.map (fun p => { p with currentBet := 0, hasActed := false })
  let r₁ := { r with pot := sweptPot, players := ps }
  let active := ps.filter (fun q => ¬q.folded)
  if h : active.length = 1 then
    let w := active.get ⟨0, by omega⟩
    let r₂ := { r₁ with
      players := updateById ps w.id (fun q => { q with chips := q.chips + r₁.pot }),
      stage := .finished }
    { r₂ with
      dealerPosition :=
        if 0 < r₂.players.length then (r.dealerPosition + 1) % r₂.players.length
        else r.dealerPosition,
      pot := 0 }
  else
    match r.stage with
    | .preFlop =>
      let d0 := r.deck.dropLast
      let (c1, d1) := dealOne d0
      let (c2, d2) := dealOne d1
      let (c3, d3) := dealOne d2
      resetRound { r₁ with deck := d3,
                           communityCards := r.communityCards ++ [c1, c2, c3],
                           stage := .flop }
    | .flop =>
      let d0 := r.deck.dropLast
      let (c1, d1) := dealOne d0
      resetRound { r₁ with deck := d1,
                           communityCards := r.communityCards ++ [c1],
                           stage := .turn }
    | .turn =>
      let d0 := r.deck.dropLast
      let (c1, d1) := dealOne d0
      resetRound { r₁ with deck := d1,
                           communityCards := r.communityCards ++ [c1],
                           stage := .river }
    | .river =>
      determineWinner { r₁ with stage := .showdown }
    | _ => resetRound r₁

/-- `max((p.current_bet for p in ...), default=0)`. -/
def maxBetD (l : List Int) : Int :=
  match l with
  | [] => 0
  | x :: xs => xs.foldl max x

/-- The action-dispatch block of `GameRoom.process_action` (the chain of
`if action == ...` branches).  `p` is the acting player's current record;
failure carries the error message and leaves the room unchanged. -/
def processActionCore (r : Room) (p : Player) (pid action : String)
    (amount : Int) : Except String Room :=
  if action = "fold" then
    let ps := updateById r.players pid (fun q => { q with folded := true, hasActed := true })
    .ok { r with players := ps }
  else if action = "check" then
    if p.currentBet < r.currentBet then .error "Cannot check, must call or fold"
    else
      let ps := updateById r.players pid (fun q => { q with hasActed := true })
      .ok { r with players := ps }
  else if action = "call" then
    let callAmount := r.currentBet - p.currentBet
    if p.chips < callAmount then .error "Not enough chips to call"
    else
      let (p', _) := p.bet callAmount
      let ps := updateById r.players pid (fun _ => { p' with hasActed := true })
      .ok { r with players := ps }
  else if action = "bet" ∨ action = "raise" then
    let betAmountE : Except String Int :=
      if r.stage = .preFlop ∧ r.currentBet = 0 then .ok amount
      else
        let raiseAmount := amount - r.currentBet
        if raiseAmount < r.lastRaiseAmount then
          .error ("Raise must be at least " ++ toString r.lastRaiseAmount)
        else .ok amount
    match betAmountE with
    | .error e => .error e
    | .ok betAmount =>
      if betAmount < r.currentBet then .error "Bet must be at least the current bet"
      else
        let totalNeeded := betAmount - p.currentBet
        if p.chips < totalNeeded then .error "Not enough chips"
        else
          let (p₁, actualBet) := p.bet totalNeeded
          let p₂ := { p₁ with hasActed := true }
          let lra := if action = "raise" ∧ 0 < actualBet then actualBet
                     else r.lastRaiseAmount
          let ps := r.players.map (fun q =>
            if q.id = pid then p₂
            else if ¬q.folded ∧ ¬q.isAllIn then { q with hasActed := false }
            else q)
          .ok { r with players := ps, lastRaiseAmount := lra, currentBet := p₂.currentBet }
  else if action = "all_in" then
    let (p₁, _) := p.bet p.chips
    if r.currentBet < p₁.currentBet then
      let others := (r.players.filter (fun q => ¬q.id = pid)).map (·.currentBet)
      let ps := r.players.map (fun q =>
        if q.id = pid then { p₁ with hasActed := true }
        else if ¬q.folded ∧ ¬q.isAllIn then { q with hasActed := false }
        else q)
      .ok { r with players := ps, currentBet := p₁.currentBet,
                   lastRaiseAmount := p₁.currentBet - maxBetD others }
    else
      let ps := updateById r.players pid (fun _ => { p₁ with hasActed := true })
      .ok { r with players := ps }
  else
    -- unrecognized action string: no branch taken, fall through unchanged
    .ok r

/-- The epilogue shared by every successful action: recompute the pot,
advance the action pointer, and advance the stage when the betting round is
complete. -/
def postAction (r : Room) : Room :=
  let r₁ := moveToNextPlayer { r with pot := roomSumBets r }
  if bettingRoundComplete r₁ then advanceStage r₁ else r₁

/-- The id of the player whose turn it is, resolved exactly as the source
does: `active_players[self.action_player_index % len(active_players)]`.
When no active player remains the index is out of range (`none`); there the
source raises `ZeroDivisionError`. -/
def currentTurn (r : Room) : Option String :=
  let active := r.players.filter (fun q => ¬q.folded)
  (active.get? (r.actionPlayerIndex % active.length)).map (·.id)

/-- `GameRoom.process_action`.  `none` models the uncaught
`ZeroDivisionError` the source raises when every seated player has folded. -/
def processAction (r : Room) (playerId action : String) (amount : Int := 0) :
    Option ((Bool × String) × Room) :=
  match r.players.find? (fun q => q.id = playerId) with
  | none => some ((false, "Player not found"), r)
  | some p =>
    match currentTurn r with
    | none => none
    | some currentId =>
      if currentId ≠ playerId then some ((false, "Not your turn"), r)
      else if p.hasActed ∧ ¬needsAction r p then
        some ((false, "You've already acted this round"), r)
      else
        match processActionCore r p playerId action amount with
        | .error msg => some ((false, msg), r)
        | .ok r' => some ((true, "Action processed"), postAction r')

/-- The snapshot returned by `GameRoom.get_game_state` (community cards are
kept as `Card` values; the source renders them to strings). -/
structure Snapshot where
  roomId : String
  players : List PlayerView
  dealerPosition : Nat
  currentBet : Int
  pot : Int
  communityCards : List Card
  stage : GameStage
  smallBlind : Int
  bigBlind : Int
  actionPlayerIndex : Nat
  lastRaiseAmount : Int
deriving DecidableEq, Repr

/-- `GameRoom.get_game_state`: `hide_cards = pid != player_id or self.stage
== GameStage.FINISHED or player.folded`. -/
def getGameState (r : Room) (playerId : Option String := none) : Snapshot :=
  { roomId := r.roomId
    players := r.players.map (fun p =>
      p.toDict (decide ((some p.id ≠ playerId) ∨ r.stage = .finished ∨ p.folded = true)))
    dealerPosition := r.dealerPosition
    currentBet := r.currentBet
    pot := r.pot
    communityCards := r.communityCards
    stage := r.stage
    smallBlind := r.smallBlind
    bigBlind := r.bigBlind
    actionPlayerIndex := r.actionPlayerIndex
    lastRaiseAmount := r.lastRaiseAmount }

/-! ### Concrete scenario states

Scenario C of the spec: two players `p0`, `p1`, stacks 1000/1000, blinds
10/20, dealer at seat 0.  `scenDeck` is one concrete shuffled deck (cards are
dealt by popping from the tail). -/

/-- A concrete 12-card deck for the two-player scenario. -/
def scenDeck : List Card :=
  [⟨.hearts, .two⟩, ⟨.hearts, .three⟩, ⟨.hearts, .four⟩, ⟨.hearts, .five⟩,
   ⟨.hearts, .six⟩, ⟨.hearts, .seven⟩, ⟨.hearts, .eight⟩, ⟨.hearts, .nine⟩,
   ⟨.diamonds, .two⟩, ⟨.diamonds, .three⟩, ⟨.diamonds, .four⟩, ⟨.diamonds, .five⟩]

/-- Room with `p0` (Alice) and `p1` (Bob) seated, before any hand. -/
def scenRoom0 : Room := (addPlayer (addPlayer (mkRoom "r") "p0" "Alice").2 "p1" "Bob").2

/-- The scenario room after `start_hand`. -/
def scenRoom1 : Room := (startHand scenRoom0 scenDeck).2

/-- Scenario glue: the room after an action (unchanged when the action is
rejected or raises). -/
def stepAction (r : Room) (pid act : String) (amt : Int := 0) : Room :=
  ((processAction r pid act amt).map (·.2)).getD r

/-- The scenario room after the small blind (`p0`, on action) calls. -/
def scenRoom2 : Room := stepAction scenRoom1 "p0" "call"

/-- The scenario room after the big blind (`p1`) then checks. -/
def scenRoom3 : Room := stepAction scenRoom2 "p1" "check"

/-- The acting player's record in `scenRoom1` (the small blind `p0`). -/
def scenP0 : Player := scenRoom1.players.getD 0 default

/-- The wheel of Scenario B: {A♥, 2♦, 3♣, 4♠, 5♥}. -/
def wheelCards : List Card :=
  [⟨.hearts, .ace⟩, ⟨.diamonds, .two⟩, ⟨.clubs, .three⟩, ⟨.spades, .four⟩,
   ⟨.hearts, .five⟩]

/-- A six-high straight {2♥, 3♦, 4♣, 5♠, 6♥}, for comparing tiebreaks. -/
def sixHighStraight : List Card :=
  [⟨.hearts, .two⟩, ⟨.diamonds, .three⟩, ⟨.clubs, .four⟩, ⟨.spades, .five⟩,
   ⟨.hearts, .six⟩]

/-- A finished hand with two non-folded players still holding hole cards. -/
def finishedRoom : Room :=
  { mkRoom "f" with
      stage := .finished,
      players :=
        [{ id := "a", name := "A", chips := 980,
           holeCards := [⟨.hearts, .ace⟩, ⟨.spades, .king⟩], position := 0 },
         { id := "b", name := "B", chips := 1020,
           holeCards := [⟨.clubs, .two⟩, ⟨.diamonds, .seven⟩], position := 1 }] }

/-- A pre-flop state in which the short-stacked player `a` (5 chips) faces a
table bet of 20 and is on action. -/
def shortStackRoom : Room :=
  { mkRoom "s" with
      stage := .preFlop,
      currentBet := 20,
      pot := 25,
      players :=
        [{ id := "a", name := "A", chips := 5, currentBet := 0, position := 0 },
         { id := "b", name := "B", chips := 980, currentBet := 20, position := 1 }],
      actionPlayerIndex := 0 }

/-- A showdown between two players tied on a board-played royal flush, with
pot 101 (Scenario F). -/
def splitPotRoom : Room :=
  { mkRoom "sp" with
      stage := .showdown,
      pot := 101,
      communityCards := [⟨.spades, .ten⟩, ⟨.spades, .jack⟩, ⟨.spades, .queen⟩,
        ⟨.spades, .king⟩, ⟨.spades, .ace⟩],
      players :=
        [{ id := "a", name := "A", chips := 900,
           holeCards := [⟨.hearts, .two⟩, ⟨.diamonds, .three⟩], position := 0 },
         { id := "b", name := "B", chips := 900,
           holeCards := [⟨.clubs, .four⟩, ⟨.diamonds, .five⟩], position := 1 }] }

instance : IsTotal Nat (fun a b : Nat => b ≤ a) := ⟨fun a b => le_total b a⟩

instance : IsTrans Nat (fun a b : Nat => b ≤ a) := ⟨fun _ _ _ h1 h2 => le_trans h2 h1⟩

instance : IsAntisymm Nat (fun a b : Nat => b ≤ a) := ⟨fun _ _ h1 h2 => le_antisymm h2 h1⟩

/-! ### Claim theorems -/

/-- **C1** (code bug).  Chip conservation fails on the code: in the
two-player scenario (total chips 2000 at hand start) the pre-flop round —
small blind calls, big blind checks — ends with
`sum(stack) + sum(currentBet) + pot = 2040`: `_advance_stage` adds all live
bets to a pot that `process_action` had already set to the sum of those
bets, double-counting every swept chip. -/
theorem c1_chip_conservation_violated :
    ((scenRoom0.players.map (·.chips)).sum + roomSumBets scenRoom0 + scenRoom0.pot = 2000) ∧
    ((processAction scenRoom1 "p0" "call" 0).map (·.1) = some (true, "Action processed")) ∧
    ((processAction scenRoom2 "p1" "check" 0).map (·.1) = some (true, "Action processed")) ∧
    (scenRoom3.stage = GameStage.flop) ∧
    ((scenRoom3.players.map (·.chips)).sum + roomSumBets scenRoom3 + scenRoom3.pot = 2040) := by
  refine ⟨by decide, by decide, by decide, by decide, by decide⟩

/-- **C6** (counterexample).  In the heads-up scenario the betting round does
*not* complete when the player at dealer+2 (the small blind) calls to 20: the
big blind has not yet acted (`has_acted` is still false), so the stage stays
PRE_FLOP and no community cards are dealt, contradicting the claimed
immediate advance to FLOP. -/
theorem c6_counterexample :
    ((processAction scenRoom1 "p0" "call" 0).map (·.1) = some (true, "Action processed")) ∧
    (scenRoom2.pot = 40) ∧ (scenRoom2.currentBet = 20) ∧
    (bettingRoundComplete scenRoom2 = false) ∧
    (scenRoom2.stage = GameStage.preFlop) ∧
    (scenRoom2.communityCards = []) := by
  refine ⟨by decide, by decide, by decide, by decide, by decide, by decide⟩

/-- **C6** (amended).  As Scenario C, except that the round completes only
after the big blind also acts: after `start_hand` the table bet is 20, the
pot is 30 and seat (dealer+2) mod 2 is on action; the call makes the pot 40
with the table bet unchanged and the round still open; once the big blind
checks, the stage advances to FLOP with 3 community cards and the table bet
reset to 0. -/
theorem c6_scenario_amended :
    (scenRoom1.currentBet = 20) ∧ (scenRoom1.pot = 30) ∧
    (scenRoom1.actionPlayerIndex = (scenRoom0.dealerPosition + 2) % 2) ∧
    (currentTurn scenRoom1 = some "p0") ∧
    ((processAction scenRoom1 "p0" "call" 0).map (·.1) = some (true, "Action processed")) ∧
    (scenRoom2.pot = 40) ∧ (scenRoom2.currentBet = 20) ∧
    (bettingRoundComplete scenRoom2 = false) ∧ (scenRoom2.stage = GameStage.preFlop) ∧
    ((processAction scenRoom2 "p1" "check" 0).map (·.1) = some (true, "Action processed")) ∧
    (scenRoom3.stage = GameStage.flop) ∧
    (scenRoom3.communityCards.length = 3) ∧
    (scenRoom3.currentBet = 0) := by
  refine ⟨by decide, by decide, by decide, by decide, by decide, by decide, by decide,
    by decide, by decide, by decide, by decide, by decide, by decide⟩

/-- **C4** (counterexample).  In the scenario the small blind (contribution
10, table bet 20) raises to a total of 60; the marginal raise over the table
bet is 40, but the code sets the minimum raise increment to the chips the
raiser actually added, `60 - 10 = 50`, not `60 - 20 = 40` as the claim
states. -/
theorem c4_counterexample :
    ((processAction scenRoom1 "p0" "raise" 60).map
        (fun x => (x.1.1, x.2.lastRaiseAmount, x.2.currentBet)) = some (true, 50, 60)) ∧
    ¬((50 : Int) = 60 - 20) := by
  refine ⟨by decide, by decide⟩

/-- **C5** (counterexample).  The wheel {A♥, 2♦, 3♣, 4♠, 5♥} is scored as a
straight, but its tiebreak is the plain descending rank list
`[12, 3, 2, 1, 0]`: the Ace keeps its high value 12 at the head, so the
tiebreak compares *above* a six-high straight — the Ace is not treated as a
rank below 2. -/
theorem c5_counterexample :
    (evaluateFiveCards wheelCards = (4, [12, 3, 2, 1, 0])) ∧
    (evaluateFiveCards sixHighStraight = (4, [4, 3, 2, 1, 0])) ∧
    (listGtNat [12, 3, 2, 1, 0] [4, 3, 2, 1, 0] = true) := by
  refine ⟨by decide, by decide, by decide⟩

/-- **C2** (counterexample).  When the stage is FINISHED the snapshot hides
*every* player's hole cards from every viewer — `hide_cards` is
`pid != player_id or stage == FINISHED or player.folded`, which is true for
all players at FINISHED.  Here the non-folded player `a` views the finished
hand and sees empty hole cards for every participant, including their own,
contradicting the claimed showdown reveal. -/
theorem c2_counterexample :
    (finishedRoom.players.map (·.holeCards) ≠ [[], []]) ∧
    ((getGameState finishedRoom (some "a")).players.map (·.holeCards) = [[], []]) ∧
    ((getGameState finishedRoom (some "b")).players.map (·.holeCards) = [[], []]) := by
  refine ⟨by decide, by decide, by decide⟩

/-- **C3** (counterexample).  A call is not always satisfiable: player `a`
with a 5-chip stack faces a table bet of 20 on their turn, and `call` is
rejected with the insufficient-chips error instead of moving
`min(20 - 0, 5) = 5` chips as an effective all-in. -/
theorem c3_counterexample :
    (currentTurn shortStackRoom = some "a") ∧
    (processAction shortStackRoom "a" "call" 0 =
      some ((false, "Not enough chips to call"), shortStackRoom)) := by
  refine ⟨by decide, by decide⟩

/-- Helper: on the acting player's turn, with the already-acted gate passed,
`process_action` reduces to its action-dispatch block followed by the shared
epilogue. -/
theorem processAction_on_turn (r : Room) (p : Player) (action : String) (amount : Int)
    (hfind : r.players.find? (fun q => q.id = p.id) = some p)
    (hturn : currentTurn r = some p.id)
    (hgate : ¬(p.hasActed = true ∧ ¬needsAction r p)) :
    processAction r p.id action amount =
      match processActionCore r p p.id action amount with
      | .error msg => some ((false, msg), r)
      | .ok r' => some ((true, "Action processed"), postAction r') := by
  unfold processAction
  rw [hfind, hturn]
  simp only [ne_eq, not_true_eq_false, if_false, hgate, if_neg hgate]

/-- Helper: a resolvable turn means some seated player is active. -/
theorem active_ne_nil_of_turn (r : Room) (pid : String)
    (hturn : currentTurn r = some pid) :
    r.players.filter (fun q => ¬q.folded) ≠ [] := by
  intro hnil
  unfold currentTurn at hturn
  rw [hnil] at hturn
  simp at hturn

/-- **C2** (amended).  Redacted snapshot visibility as the code implements
it: a player's hole cards are shown exactly to that player themselves while
the stage is not FINISHED and they have not folded; in every other case —
including the FINISHED stage, for everyone, the viewer's own hand included —
the snapshot renders the hole cards empty.  There is no showdown reveal. -/
theorem c2_redaction_amended (r : Room) (viewer : Option String) :
    (getGameState r viewer).players.map (·.holeCards) =
      r.players.map (fun p =>
        if viewer = some p.id ∧ ¬r.stage = GameStage.finished ∧ ¬p.folded = true
        then p.holeCards else []) := by
  unfold getGameState
  simp only [List.map_map]
  refine List.map_congr_left (fun p _ => ?_)
  unfold Player.toDict
  simp only [Function.comp_apply]
  by_cases hD : (some p.id ≠ viewer) ∨ r.stage = GameStage.finished ∨ p.folded = true
  · have hRHS : ¬(viewer = some p.id ∧ ¬r.stage = GameStage.finished ∧ ¬p.folded = true) := by
      rcases hD with h | h | h
      · exact fun hc => h hc.1.symm
      · exact fun hc => hc.2.1 h
      · exact fun hc => hc.2.2 h
    rw [if_neg hRHS]
    by_cases hc : p.holeCards = []
    · simp [hc]
    · simp [hD, hc]
  · push_neg at hD
    obtain ⟨h1, h2, h3⟩ := hD
    simp [h1.symm, h2, h3]

/-- **C3** (amended).  On the acting player's turn, `call` moves exactly
`tableBet - playerBet` chips from stack to bet when the stack covers it
(marking the player all-in when this empties the stack), and otherwise is
rejected with the insufficient-chips error, leaving the room unchanged —
a short stack cannot call for less. -/
theorem c3_call_amended (r : Room) (p : Player)
    (hfind : r.players.find? (fun q => q.id = p.id) = some p)
    (hturn : currentTurn r = some p.id)
    (hgate : ¬(p.hasActed = true ∧ ¬needsAction r p)) :
    (p.chips < r.currentBet - p.currentBet →
      processAction r p.id "call" 0 = some ((false, "Not enough chips to call"), r)) ∧
    (r.currentBet - p.currentBet ≤ p.chips →
      processAction r p.id "call" 0 = some ((true, "Action processed"),
        postAction { r with players := updateById r.players p.id (fun _ =>
          { p with
              chips := p.chips - (r.currentBet - p.currentBet),
              currentBet := r.currentBet,
              isAllIn := if p.chips - (r.currentBet - p.currentBet) = 0 then true
                         else p.isAllIn,
              hasActed := true }) })) := by
  rw [processAction_on_turn r p "call" 0 hfind hturn hgate]
  unfold processActionCore
  simp only [String.reduceEq, reduceIte, if_true, if_false]
  constructor
  · intro h
    rw [if_pos h]
  · intro h
    rw [if_neg (not_lt.mpr h)]
    unfold Player.bet
    simp only [min_eq_left h]
    have hbet : p.currentBet + (r.currentBet - p.currentBet) = r.currentBet := by ring
    by_cases hz : p.chips - (r.currentBet - p.currentBet) = 0
    · simp [hz, hbet]
    · simp [hz, hbet]

/-- **C3** witness: the small blind of the concrete scenario calls 10 more
chips out of a 990 stack. -/
theorem c3_call_witness :
    (scenRoom1.players.find? (fun q => q.id = scenP0.id) = some scenP0) ∧
    (currentTurn scenRoom1 = some scenP0.id) ∧
    (scenRoom1.currentBet - scenP0.currentBet ≤ scenP0.chips) ∧
    processAction scenRoom1 scenP0.id "call" 0 = some ((true, "Action processed"),
      postAction { scenRoom1 with players := updateById scenRoom1.players scenP0.id (fun _ =>
        { scenP0 with
            chips := scenP0.chips - (scenRoom1.currentBet - scenP0.currentBet),
            currentBet := scenRoom1.currentBet,
            isAllIn := if scenP0.chips - (scenRoom1.currentBet - scenP0.currentBet) = 0 then true
                       else scenP0.isAllIn,
            hasActed := true }) }) :=
  ⟨by decide, by decide, by decide,
    (c3_call_amended scenRoom1 scenP0 (by decide) (by decide) (by decide)).2 (by decide)⟩

/-- **C4** (amended).  For a `bet`/`raise` outside the zero-table-bet
pre-flop special case: if the marginal raise over the table bet is below the
last raise increment the action is rejected with the raise-too-small error;
on success the table bet becomes `amount`, `hasActed` is cleared on every
other non-folded, non-all-in player, and the minimum raise increment is
updated only by `raise` actions (not `bet`) and becomes the chips the raiser
actually added — `amount` minus the *raiser's own previous contribution*,
not `amount` minus the previous table bet — whenever that is positive. -/
theorem c4_raise_amended (r : Room) (p : Player) (action : String) (amount : Int)
    (hfind : r.players.find? (fun q => q.id = p.id) = some p)
    (hturn : currentTurn r = some p.id)
    (hgate : ¬(p.hasActed = true ∧ ¬needsAction r p))
    (haction : action = "bet" ∨ action = "raise")
    (hbranch : ¬(r.stage = GameStage.preFlop ∧ r.currentBet = 0)) :
    (amount - r.currentBet < r.lastRaiseAmount →
      processAction r p.id action amount =
        some ((false, "Raise must be at least " ++ toString r.lastRaiseAmount), r)) ∧
    (r.lastRaiseAmount ≤ amount - r.currentBet → r.currentBet ≤ amount →
      amount - p.currentBet ≤ p.chips →
      processAction r p.id action amount = some ((true, "Action processed"),
        postAction { r with
          players := r.players.map (fun q =>
            if q.id = p.id then
              { p with
                  chips := p.chips - (amount - p.currentBet),
                  currentBet := amount,
                  isAllIn := if p.chips - (amount - p.currentBet) = 0 then true
                             else p.isAllIn,
                  hasActed := true }
            else if ¬q.folded ∧ ¬q.isAllIn then { q with hasActed := false }
            else q),
          lastRaiseAmount := if action = "raise" ∧ 0 < amount - p.currentBet
                             then amount - p.currentBet else r.lastRaiseAmount,
          currentBet := amount })) := by
  have hne1 : action ≠ "fold" := by rcases haction with h | h <;> subst h <;> decide
  have hne2 : action ≠ "check" := by rcases haction with h | h <;> subst h <;> decide
  have hne3 : action ≠ "call" := by rcases haction with h | h <;> subst h <;> decide
  rw [processAction_on_turn r p action amount hfind hturn hgate]
  unfold processActionCore
  rw [if_neg hne1, if_neg hne2, if_neg hne3, if_pos haction, if_neg hbranch]
  constructor
  · intro h
    rw [if_pos h]
  · intro h1 h2 h3
    rw [if_neg (not_lt.mpr h1)]
    dsimp only
    rw [if_neg (not_lt.mpr h2), if_neg (not_lt.mpr h3)]
    unfold Player.bet
    simp only [min_eq_left h3]
    have hbet : p.currentBet + (amount - p.currentBet) = amount := by ring
    by_cases hz : p.chips - (amount - p.currentBet) = 0
    · simp [hz, hbet]
    · simp [hz, hbet]

/-- **C4** witness: the small blind (own contribution 10, table bet 20)
raises to 60; the minimum raise increment becomes 50 = 60 − 10. -/
theorem c4_raise_witness :
    (scenRoom1.lastRaiseAmount ≤ 60 - scenRoom1.currentBet) ∧
    (¬(scenRoom1.stage = GameStage.preFlop ∧ scenRoom1.currentBet = 0)) ∧
    processAction scenRoom1 scenP0.id "raise" 60 = some ((true, "Action processed"),
      postAction { scenRoom1 with
        players := scenRoom1.players.map (fun q =>
          if q.id = scenP0.id then
            { scenP0 with
                chips := scenP0.chips - (60 - scenP0.currentBet),
                currentBet := 60,
                isAllIn := if scenP0.chips - (60 - scenP0.currentBet) = 0 then true
                           else scenP0.isAllIn,
                hasActed := true }
          else if ¬q.folded ∧ ¬q.isAllIn then { q with hasActed := false }
          else q),
        lastRaiseAmount := if "raise" = "raise" ∧ 0 < (60 : Int) - scenP0.currentBet
                           then 60 - scenP0.currentBet else scenRoom1.lastRaiseAmount,
        currentBet := 60 }) :=
  ⟨by decide, by decide,
    (c4_raise_amended scenRoom1 scenP0 "raise" 60 (by decide) (by decide) (by decide)
      (Or.inr rfl) (by decide)).2 (by decide) (by decide) (by decide)⟩

/-- **C10**.  An unrecognized action string on the acting player's turn is
reported as a success ("Action processed"): no dispatch branch runs, so no
player's chips, bet or flags change, yet the shared epilogue still runs —
the pot is recomputed, the action pointer advances to the next seat, and the
round-completion check is evaluated — silently skipping the player's turn
(and, when the check fails, leaving every player record untouched). -/
theorem c10_unknown_action_noop (r : Room) (p : Player) (action : String) (amount : Int)
    (hfind : r.players.find? (fun q => q.id = p.id) = some p)
    (hturn : currentTurn r = some p.id)
    (hgate : ¬(p.hasActed = true ∧ ¬needsAction r p))
    (hact : ¬(action = "fold" ∨ action = "check" ∨ action = "call" ∨
              action = "bet" ∨ action = "raise" ∨ action = "all_in")) :
    processAction r p.id action amount = some ((true, "Action processed"), postAction r) ∧
    (bettingRoundComplete (moveToNextPlayer { r with pot := roomSumBets r }) = false →
      (postAction r).players = r.players ∧
      (postAction r).pot = roomSumBets r ∧
      (postAction r).stage = r.stage ∧
      (postAction r).actionPlayerIndex = (r.actionPlayerIndex + 1) % r.players.length) := by
  push_neg at hact
  obtain ⟨h1, h2, h3, h4, h5, h6⟩ := hact
  have hcore : processActionCore r p p.id action amount = .ok r := by
    unfold processActionCore
    rw [if_neg h1, if_neg h2, if_neg h3, if_neg (by tauto), if_neg h6]
  rw [processAction_on_turn r p action amount hfind hturn hgate, hcore]
  have hmove : moveToNextPlayer { r with pot := roomSumBets r } =
      { r with pot := roomSumBets r,
               actionPlayerIndex := (r.actionPlayerIndex + 1) % r.players.length } := by
    unfold moveToNextPlayer
    have hne : r.players.filter (fun q => ¬q.folded) ≠ [] :=
      active_ne_nil_of_turn r p.id hturn
    simp only []
    rw [if_neg (by simpa [List.isEmpty_iff] using hne)]
  constructor
  · rfl
  · intro hc
    rw [hmove] at hc
    unfold postAction
    rw [hmove]
    simp [hc, Bool.false_eq_true, if_false]

/-- **C10** witness: the unknown action "dance" on the scenario's opening
turn succeeds, changes no player record, recomputes the pot and advances the
action pointer. -/
theorem c10_unknown_action_witness :
    (processAction scenRoom1 scenP0.id "dance" 0 =
      some ((true, "Action processed"), postAction scenRoom1)) ∧
    ((postAction scenRoom1).players = scenRoom1.players ∧
     (postAction scenRoom1).pot = roomSumBets scenRoom1 ∧
     (postAction scenRoom1).stage = scenRoom1.stage ∧
     (postAction scenRoom1).actionPlayerIndex =
       (scenRoom1.actionPlayerIndex + 1) % scenRoom1.players.length) :=
  ⟨(c10_unknown_action_noop scenRoom1 scenP0 "dance" 0 (by decide) (by decide)
      (by decide) (by decide)).1,
   (c10_unknown_action_noop scenRoom1 scenP0 "dance" 0 (by decide) (by decide)
      (by decide) (by decide)).2 (by decide)⟩

/-- **C8**.  Every caller-visible rejection is atomic and returned as a
value: whenever `process_action` reports a failure (player not found, not
your turn, already acted, must call or fold, raise too small, insufficient
chips, bet below table bet), and whenever `add_player` (room full, already
seated) or `start_hand` (fewer than 2 players) returns `false`, the room is
returned unmodified. -/
theorem c8_rejection_atomic :
    (∀ (r : Room) (pid act : String) (amt : Int) (msg : String) (r' : Room),
        processAction r pid act amt = some ((false, msg), r') → r' = r) ∧
    (∀ (r : Room) (pid nm : String) (r' : Room),
        addPlayer r pid nm = (false, r') → r' = r) ∧
    (∀ (r : Room) (d : List Card) (r' : Room),
        startHand r d = (false, r') → r' = r) := by
  refine ⟨?_, ?_, ?_⟩
  · intro r pid act amt msg r' h
    unfold processAction at h
    repeat' split at h
    all_goals try simp_all
  · intro r pid nm r' h
    unfold addPlayer at h
    repeat' split at h
    all_goals try simp_all
  · intro r d r' h
    unfold startHand at h
    repeat' split at h
    all_goals try simp_all

/-- **C8** witness: a rejected out-of-turn action, a duplicate seating and
an under-populated `start_hand` each leave their concrete room unchanged. -/
theorem c8_rejection_witness :
    (processAction scenRoom1 "p1" "fold" 0 = some ((false, "Not your turn"), scenRoom1) ∧
      scenRoom1 = scenRoom1) ∧
    (addPlayer scenRoom0 "p0" "Eve" = (false, scenRoom0) ∧ scenRoom0 = scenRoom0) ∧
    (startHand (mkRoom "solo") [] = (false, mkRoom "solo") ∧ mkRoom "solo" = mkRoom "solo") :=
  ⟨⟨by decide, c8_rejection_atomic.1 scenRoom1 "p1" "fold" 0 "Not your turn" scenRoom1 (by decide)⟩,
   ⟨by decide, c8_rejection_atomic.2.1 scenRoom0 "p0" "Eve" scenRoom0 (by decide)⟩,
   ⟨by decide, c8_rejection_atomic.2.2 (mkRoom "solo") [] (mkRoom "solo") (by decide)⟩⟩

/-! ### Straight detection, general characterization (C5) -/

theorem sortAscNat_perm (l : List Nat) : (sortAscNat l).Perm l :=
  List.perm_insertionSort _ l

theorem sortAscNat_sorted (l : List Nat) : (sortAscNat l).Sorted (· ≤ ·) :=
  List.sorted_insertionSort _ l

/-- A run `[m, m+1, m+2, m+3, m+4]` of distinct ranks is detected by
`_is_straight`'s window check. -/
theorem isStraight_of_run (ranks : List Nat) (m : Nat)
    (hu : sortAscNat ranks.dedup = [m, m + 1, m + 2, m + 3, m + 4]) :
    isStraight ranks = true := by
  unfold isStraight
  simp only [hu]
  simp [show List.range 1 = [0] from rfl, Nat.add_sub_cancel_left]

/-- The wheel `[0, 1, 2, 3, 12]` is detected by `_is_straight`'s wheel
check. -/
theorem isStraight_of_wheel (ranks : List Nat)
    (hu : sortAscNat ranks.dedup = [0, 1, 2, 3, 12]) :
    isStraight ranks = true := by
  unfold isStraight
  simp only [hu]
  decide

/-- The general characterization of `_is_straight` on the rank multiset of a
5-card hand: it holds iff the ranks are distinct and, in ascending order,
form five consecutive values or exactly the wheel A-2-3-4-5. -/
theorem straight_characterization (ranks : List Nat) (hlen : ranks.length = 5) :
    isStraight ranks = true ↔
      ranks.Nodup ∧
        ((∃ m, sortAscNat ranks = [m, m + 1, m + 2, m + 3, m + 4]) ∨
          sortAscNat ranks = [0, 1, 2, 3, 12]) := by
  constructor
  · intro h
    unfold isStraight at h
    have hperm : (sortAscNat ranks.dedup).Perm ranks.dedup := sortAscNat_perm _
    have hsub : ranks.dedup.Sublist ranks := List.dedup_sublist ranks
    have hlen_le : ranks.dedup.length ≤ 5 := hlen ▸ hsub.length_le
    have hlen5 : (sortAscNat ranks.dedup).length = 5 := by
      by_contra hne
      have hlt : (sortAscNat ranks.dedup).length < 5 := by
        have := hperm.length_eq; omega
      rw [if_pos hlt] at h
      exact Bool.false_ne_true h
    have hdlen : ranks.dedup.length = 5 := by
      have := hperm.length_eq; omega
    have hded : ranks.dedup = ranks := hsub.eq_of_length (by omega)
    have hnodup : ranks.Nodup := hded ▸ ranks.nodup_dedup
    have husort : sortAscNat ranks.dedup = sortAscNat ranks := by rw [hded]
    refine ⟨hnodup, ?_⟩
    rw [if_neg (by omega)] at h
    have hunodup : (sortAscNat ranks.dedup).Nodup := hperm.symm.nodup ranks.nodup_dedup
    have husorted : (sortAscNat ranks.dedup).Sorted (· ≤ ·) := sortAscNat_sorted _
    by_cases hany : (List.range ((sortAscNat ranks.dedup).length - 4)).any
        (fun i => (sortAscNat ranks.dedup).getD (i + 4) 0 -
          (sortAscNat ranks.dedup).getD i 0 == 4) = true
    · left
      rw [hlen5] at hany
      simp only [show (5 : Nat) - 4 = 1 from rfl, show List.range 1 = [0] from rfl, List.any_cons,
        List.any_nil, Bool.or_false, beq_iff_eq] at hany
      have hslt : (sortAscNat ranks.dedup).Sorted (· < ·) :=
        husorted.lt_of_le hunodup
      rw [← husort]
      rcases hu : sortAscNat ranks.dedup with _ | ⟨a, _ | ⟨b, _ | ⟨c, _ | ⟨d, _ | ⟨e, rest⟩⟩⟩⟩⟩ <;>
          rw [hu] at hlen5 <;> simp_all
      omega
    · right
      rw [Bool.not_eq_true] at hany
      rw [hany] at h
      simp only [Bool.false_eq_true, if_false] at h
      by_cases hne : (sortAscNat ranks.dedup).filter
          (fun r => r ∈ ([0, 1, 2, 3, 4, 12] : List Nat)) = []
      · rw [if_neg (not_not_intro hne)] at h
        exact absurd h (by simp)
      rw [if_pos hne] at h
      have hflen : ((sortAscNat ranks.dedup).filter
          (fun r => r ∈ ([12, 0, 1, 2, 3] : List Nat))).length = 5 := by
        simpa using h
      have hfsub : ((sortAscNat ranks.dedup).filter
          (fun r => r ∈ ([12, 0, 1, 2, 3] : List Nat))).Sublist (sortAscNat ranks.dedup) :=
        List.filter_sublist _
      have hfeq : (sortAscNat ranks.dedup).filter
          (fun r => r ∈ ([12, 0, 1, 2, 3] : List Nat)) = sortAscNat ranks.dedup :=
        hfsub.eq_of_length (by omega)
      have hmem : ∀ x ∈ sortAscNat ranks.dedup, x ∈ ([12, 0, 1, 2, 3] : List Nat) := by
        intro x hx
        have := List.filter_eq_self.mp hfeq x hx
        simpa using this
      have hsubperm : (sortAscNat ranks.dedup).Subperm ([12, 0, 1, 2, 3] : List Nat) :=
        List.subperm_of_subset hunodup hmem
      have hp : (sortAscNat ranks.dedup).Perm ([12, 0, 1, 2, 3] : List Nat) :=
        hsubperm.perm_of_length_le (by rw [hlen5]; decide)
      have hp2 : (sortAscNat ranks.dedup).Perm ([0, 1, 2, 3, 12] : List Nat) :=
        hp.trans (by decide)
      rw [← husort]
      exact List.eq_of_perm_of_sorted hp2 husorted (by decide)
  · rintro ⟨hnodup, hcase⟩
    have hded : ranks.dedup = ranks := List.dedup_eq_self.mpr hnodup
    rcases hcase with ⟨m, hm⟩ | hw
    · exact isStraight_of_run ranks m (by rw [hded]; exact hm)
    · exact isStraight_of_wheel ranks (by rw [hded]; exact hw)

/-- **C5** (amended).  The wheel {A♥, 2♦, 3♣, 4♠, 5♥} evaluates to category
4 (Straight) with tiebreak `[12, 3, 2, 1, 0]` — the Ace keeps its high rank
value 12 in the tiebreak (the code does not rescore it below 2); and in
general `_is_straight` on the rank list of 5 cards holds iff the ranks are
distinct and form five consecutive values or exactly the A-2-3-4-5 wheel —
fewer than 5 distinct ranks is never a straight. -/
theorem c5_wheel_amended :
    (evaluateFiveCards wheelCards = (4, [12, 3, 2, 1, 0])) ∧
    (∀ ranks : List Nat, ranks.length = 5 →
      (isStraight ranks = true ↔
        ranks.Nodup ∧
          ((∃ m, sortAscNat ranks = [m, m + 1, m + 2, m + 3, m + 4]) ∨
            sortAscNat ranks = [0, 1, 2, 3, 12]))) :=
  ⟨by decide, straight_characterization⟩

/-- **C5** witness: the characterization applied to the concrete rank list
of a queen-high straight. -/
theorem c5_wheel_witness :
    (([8, 9, 10, 11, 12] : List Nat).length = 5) ∧
    (isStraight [8, 9, 10, 11, 12] = true ↔
      ([8, 9, 10, 11, 12] : List Nat).Nodup ∧
        ((∃ m, sortAscNat [8, 9, 10, 11, 12] = [m, m + 1, m + 2, m + 3, m + 4]) ∨
          sortAscNat [8, 9, 10, 11, 12] = [0, 1, 2, 3, 12])) :=
  ⟨by decide, c5_wheel_amended.2 [8, 9, 10, 11, 12] (by decide)⟩

/-! ### Split-pot payout (C7) -/

/-- The winner-distribution loop, resolved: folding id-addressed chip
increments over the player list adds, to each player, the sum of the
increments whose winner entry carries that player's id. -/
theorem foldl_update_chips (g : Nat × Player → Int) :
    ∀ (ws : List (Nat × Player)) (ps : List Player),
      ws.foldl (fun acc iw => updateById acc iw.2.id
          (fun q => { q with chips := q.chips + g iw })) ps
        = ps.map (fun p => { p with chips :=
            p.chips + ((ws.filter (fun iw => iw.2.id = p.id)).map g).sum })
  | [], ps => by
    simp only [List.foldl_nil]
    symm
    refine (List.map_congr_left (fun p _ => ?_)).trans (List.map_id ps)
    simp
  | iw :: ws, ps => by
    rw [List.foldl_cons, foldl_update_chips g ws, updateById, List.map_map]
    refine List.map_congr_left (fun p _ => ?_)
    simp only [Function.comp_apply, List.filter_cons]
    by_cases hid : p.id = iw.2.id
    · simp [← hid, add_assoc]
    · have hid' : ¬(iw.2.id = p.id) := fun h => hid h.symm
      simp [hid, hid']

/-- Entries of `enumFrom n` (with `n ≥ 1`) never carry index 0, so with
distinct winner ids the per-id payout sum collapses to `per` on membership. -/
theorem paySum_enumFrom (per rem : Int) (pid : String) :
    ∀ (ws : List Player) (n : Nat), 1 ≤ n → ((ws.map (·.id)).Nodup) →
      (((ws.enumFrom n).filter (fun iw => iw.2.id = pid)).map
          (fun iw => per + if iw.1 = 0 then rem else 0)).sum =
        if pid ∈ ws.map (·.id) then per else 0
  | [], n, _, _ => by simp
  | w :: ws, n, hn, hnd => by
    rw [List.enumFrom_cons]
    simp only [List.map_cons, List.nodup_cons, List.mem_map] at hnd
    have ih := paySum_enumFrom per rem pid ws (n + 1) (by omega) hnd.2
    by_cases hid : w.id = pid
    · have hrest : ¬ pid ∈ ws.map (·.id) := by
        rw [← hid]
        simpa [List.mem_map] using hnd.1
      simp [List.filter_cons, hid, show ¬n = 0 from by omega, ih, hrest]
    · have hid' : pid ≠ w.id := fun h => hid h.symm
      simp [List.filter_cons, hid, hid', ih]

/-- The winner list has no duplicate ids when the seated players do not. -/
theorem winnersOf_ids_nodup (r : Room)
    (hn : (r.players.map (·.id)).Nodup) : ((winnersOf r).map (·.id)).Nodup := by
  have hact : ((r.players.filter (fun q => ¬q.folded)).map (·.id)).Nodup :=
    ((List.filter_sublist r.players).map (·.id)).nodup hn
  have hsp : (sortedShowdown r).Perm (r.players.filter (fun q => ¬q.folded)) :=
    List.perm_insertionSort _ _
  have hsorted : ((sortedShowdown r).map (·.id)).Nodup :=
    ((hsp.map (·.id)).symm).nodup hact
  unfold winnersOf
  split
  · simp
  · exact ((List.filter_sublist (sortedShowdown r)).map (·.id)).nodup hsorted

/-- The winner list is empty only when no active player remains. -/
theorem active_ne_nil_of_winners (r : Room) (hw : winnersOf r ≠ []) :
    ¬(r.players.filter (fun q => ¬q.folded)).length = 0 := by
  intro h0
  apply hw
  have hnil : r.players.filter (fun q => ¬q.folded) = [] :=
    List.length_eq_zero.mp h0
  have hsnil : sortedShowdown r = [] := by
    unfold sortedShowdown
    rw [hnil]
    rfl
  unfold winnersOf
  rw [hsnil]

/-- **C7**.  Split-pot payout: with winners `W` (every non-folded player
tied on the best `(category, tiebreak)` key, in sorted order), every winner
receives `pot // |W|` and the integer remainder `pot % |W|` goes entirely to
the first winner of the sorted order; every non-winner's stack is unchanged;
the stage becomes FINISHED and the pot resets to 0. -/
theorem c7_split_pot (r : Room)
    (hn : (r.players.map (·.id)).Nodup)
    (hw : winnersOf r ≠ []) :
    ((determineWinner r).players = r.players.map (fun p =>
      { p with chips := p.chips +
        (if ((winnersOf r).headD default).id = p.id then
            r.pot.fdiv (winnersOf r).length + r.pot.fmod (winnersOf r).length
         else if p.id ∈ (winnersOf r).tail.map (·.id) then
            r.pot.fdiv (winnersOf r).length
         else 0) })) ∧
    (determineWinner r).pot = 0 ∧ (determineWinner r).stage = GameStage.finished := by
  have hact := active_ne_nil_of_winners r hw
  have hnd := winnersOf_ids_nodup r hn
  obtain ⟨w₀, t, hwt⟩ : ∃ w₀ t, winnersOf r = w₀ :: t := by
    rcases h : winnersOf r with _ | ⟨w₀, t⟩
    · exact absurd h hw
    · exact ⟨w₀, t, rfl⟩
  unfold determineWinner
  rw [if_neg hact]
  dsimp only
  refine ⟨?_, rfl, rfl⟩
  rw [foldl_update_chips (fun iw =>
    r.pot.fdiv (winnersOf r).length + if iw.1 = 0 then r.pot.fmod (winnersOf r).length else 0)]
  refine List.map_congr_left (fun p hp => ?_)
  rw [hwt] at hnd ⊢
  simp only [List.map_cons, List.nodup_cons, List.mem_map] at hnd
  rw [List.enum_cons, List.filter_cons]
  have hps := paySum_enumFrom (r.pot.fdiv (w₀ :: t).length) (r.pot.fmod (w₀ :: t).length)
    p.id t 1 (by omega) hnd.2
  by_cases h0 : w₀.id = p.id
  · have hrest : ¬ p.id ∈ t.map (·.id) := by
      rw [← h0]
      simpa [List.mem_map] using hnd.1
    rw [if_neg hrest] at hps
    have hcond : decide ((0, w₀).2.id = p.id) = true := by simp [h0]
    rw [hcond, if_pos rfl, List.map_cons, List.sum_cons, hps]
    simp [h0]
  · have hcond : ¬(decide ((0, w₀).2.id = p.id) = true) := by simp [h0]
    rw [if_neg hcond]
    by_cases hm : p.id ∈ t.map (·.id)
    · rw [if_pos hm] at hps
      rw [hps]
      simp [h0, hm]
    · rw [if_neg hm] at hps
      rw [hps]
      simp [h0, hm]

set_option maxRecDepth 400000 in
/-- **C7** witness: two players tied on a board-played royal flush with pot
101 — both are winners, each receives 50 and the first (`a`) the extra chip:
951 and 950. -/
theorem c7_split_pot_witness :
    ((splitPotRoom.players.map (·.id)).Nodup) ∧
    (winnersOf splitPotRoom ≠ []) ∧
    ((winnersOf splitPotRoom).length = 2) ∧
    ((determineWinner splitPotRoom).players.map (·.chips) = [951, 950]) ∧
    (((determineWinner splitPotRoom).players = splitPotRoom.players.map (fun p =>
      { p with chips := p.chips +
        (if ((winnersOf splitPotRoom).headD default).id = p.id then
            splitPotRoom.pot.fdiv (winnersOf splitPotRoom).length +
              splitPotRoom.pot.fmod (winnersOf splitPotRoom).length
         else if p.id ∈ (winnersOf splitPotRoom).tail.map (·.id) then
            splitPotRoom.pot.fdiv (winnersOf splitPotRoom).length
         else 0) })) ∧
    (determineWinner splitPotRoom).pot = 0 ∧
    (determineWinner splitPotRoom).stage = GameStage.finished) :=
  ⟨by decide, by decide, by decide, by decide,
    c7_split_pot splitPotRoom (by decide) (by decide)⟩

/-! ### Evaluator permutation invariance (C9) -/

theorem sortDescNat_perm (l : List Nat) : (sortDescNat l).Perm l :=
  List.perm_insertionSort _ l

theorem sortDescNat_sorted (l : List Nat) :
    (sortDescNat l).Sorted (fun a b => b ≤ a) :=
  List.sorted_insertionSort _ l

/-- `sorted(xs, reverse=True)` is a function of the multiset of `xs`. -/
theorem sortDescNat_perm_eq {l₁ l₂ : List Nat} (h : l₁.Perm l₂) :
    sortDescNat l₁ = sortDescNat l₂ :=
  List.eq_of_perm_of_sorted
    ((sortDescNat_perm l₁).trans (h.trans (sortDescNat_perm l₂).symm))
    (sortDescNat_sorted l₁) (sortDescNat_sorted l₂)

/-- `_evaluate_five_cards` is invariant under reordering its 5 cards: it
only consumes the sorted rank list and the suit set. -/
theorem evaluateFiveCards_perm {l₁ l₂ : List Card} (h : l₁.Perm l₂) :
    evaluateFiveCards l₁ = evaluateFiveCards l₂ := by
  unfold evaluateFiveCards
  dsimp only
  have hr : sortDescNat (l₁.map (fun c => rankValue c.rank)) =
      sortDescNat (l₂.map (fun c => rankValue c.rank)) :=
    sortDescNat_perm_eq (h.map _)
  have hs : (l₁.map (·.suit)).dedup.length = (l₂.map (·.suit)).dedup.length :=
    ((h.map _).dedup).length_eq
  rw [hr, hs]

theorem listGtNat_asymm : ∀ {l₁ l₂ : List Nat},
    listGtNat l₁ l₂ = true → listGtNat l₂ l₁ = false
  | [], l₂, h => by simp [listGtNat] at h
  | a :: as, [], _ => by simp [listGtNat]
  | a :: as, b :: bs, h => by
    simp only [listGtNat] at h ⊢
    rcases Nat.lt_trichotomy a b with hab | hab | hab
    · rw [if_neg (by omega), if_pos hab] at h
      exact absurd h (by simp)
    · subst hab
      rw [if_neg (by omega), if_neg (by omega)] at h ⊢
      exact listGtNat_asymm h
    · rw [if_neg (by omega), if_pos hab]

theorem listGtNat_trans : ∀ {l₁ l₂ l₃ : List Nat},
    listGtNat l₁ l₂ = true → listGtNat l₂ l₃ = true → listGtNat l₁ l₃ = true
  | _, [], _, _, h₂ => by simp [listGtNat] at h₂
  | [], _ :: _, _, h₁, _ => by simp [listGtNat] at h₁
  | a :: as, b :: bs, [], _, _ => by simp [listGtNat]
  | a :: as, b :: bs, c :: cs, h₁, h₂ => by
    simp only [listGtNat] at h₁ h₂ ⊢
    rcases Nat.lt_trichotomy b a with hba | hba | hba
    · rcases Nat.lt_trichotomy c b with hcb | hcb | hcb
      · rw [if_pos (by omega)]
      · rw [if_pos (by omega)]
      · rw [if_neg (by omega), if_pos hcb] at h₂
        exact absurd h₂ (by simp)
    · rw [if_neg (by omega), if_neg (by omega)] at h₁
      rcases Nat.lt_trichotomy c a with hca | hca | hca
      · rw [if_pos hca]
      · rw [if_neg (by omega), if_neg (by omega)] at h₂
        rw [if_neg (by omega), if_neg (by omega)]
        exact listGtNat_trans h₁ h₂
      · rw [if_neg (by omega), if_pos (by omega : b < c)] at h₂
        exact absurd h₂ (by simp)
    · rw [if_neg (by omega), if_pos hba] at h₁
      exact absurd h₁ (by simp)

theorem listGtNat_total : ∀ (l₁ l₂ : List Nat),
    l₁ = l₂ ∨ listGtNat l₁ l₂ = true ∨ listGtNat l₂ l₁ = true
  | [], [] => Or.inl rfl
  | [], b :: bs => by right; right; simp [listGtNat]
  | a :: as, [] => by right; left; simp [listGtNat]
  | a :: as, b :: bs => by
    rcases Nat.lt_trichotomy a b with h | h | h
    · right; right
      simp only [listGtNat]
      rw [if_pos h]
    · subst h
      rcases listGtNat_total as bs with h' | h' | h'
      · left; rw [h']
      · right; left
        simp only [listGtNat]
        rw [if_neg (by omega), if_neg (by omega)]
        exact h'
      · right; right
        simp only [listGtNat]
        rw [if_neg (by omega), if_neg (by omega)]
        exact h'
    · right; left
      simp only [listGtNat]
      rw [if_pos h]

theorem keyGt_asymm {x y : Nat × List Nat} (h : keyGt x y = true) :
    keyGt y x = false := by
  unfold keyGt at h ⊢
  simp only [Bool.or_eq_true, decide_eq_true_eq, Bool.and_eq_true, beq_iff_eq] at h
  rcases h with h | ⟨he, hl⟩
  · simp [show ¬(x.1 < y.1) from by omega, show ¬(y.1 = x.1) from by omega]
  · simp [show ¬(x.1 < y.1) from by omega, he.symm, listGtNat_asymm hl]

theorem keyGt_trans {x y z : Nat × List Nat} (h₁ : keyGt x y = true)
    (h₂ : keyGt y z = true) : keyGt x z = true := by
  unfold keyGt at h₁ h₂ ⊢
  simp only [Bool.or_eq_true, decide_eq_true_eq, Bool.and_eq_true, beq_iff_eq] at h₁ h₂ ⊢
  rcases h₁ with h₁ | ⟨he₁, hl₁⟩ <;> rcases h₂ with h₂ | ⟨he₂, hl₂⟩
  · exact Or.inl (by omega)
  · exact Or.inl (by omega)
  · exact Or.inl (by omega)
  · exact Or.inr ⟨by omega, listGtNat_trans hl₁ hl₂⟩

theorem keyGt_trichotomy (x y : Nat × List Nat) :
    x = y ∨ keyGt x y = true ∨ keyGt y x = true := by
  rcases Nat.lt_trichotomy x.1 y.1 with h | h | h
  · right; right
    unfold keyGt
    simp [h]
  · rcases listGtNat_total x.2 y.2 with h' | h' | h'
    · left
      exact Prod.ext h h'
    · right; left
      unfold keyGt
      simp [h, h']
    · right; right
      unfold keyGt
      simp [h.symm, h']
  · right; left
    unfold keyGt
    simp [h]

/-- Right-commutativity of the evaluator's running-best update. -/
theorem keyMax_rightComm (b x y : Nat × List Nat) :
    (if keyGt y (if keyGt x b then x else b) then y
     else if keyGt x b then x else b) =
    (if keyGt x (if keyGt y b then y else b) then x
     else if keyGt y b then y else b) := by
  by_cases hxb : keyGt x b = true
  · by_cases hyb : keyGt y b = true
    · by_cases hyx : keyGt y x = true
      · have hxy : keyGt x y = false := keyGt_asymm hyx
        simp [hxb, hyb, hyx, hxy]
      · by_cases hxy : keyGt x y = true
        · simp [hxb, hyb, hyx, hxy]
        · rcases keyGt_trichotomy x y with he | hc | hc
          · simp [hxb, hyb, hyx, hxy, he]
          · exact absurd hc hxy
          · exact absurd hc hyx
    · have hyx : ¬ keyGt y x = true := fun hc => hyb (keyGt_trans hc hxb)
      simp [hxb, hyb, hyx]
  · by_cases hyb : keyGt y b = true
    · have hxy : ¬ keyGt x y = true := fun hc => hxb (keyGt_trans hc hyb)
      simp [hxb, hyb, hxy]
    · simp [hxb, hyb]

/-- Mapping a permutation-invariant function over all length-`n`
subsequences commutes with permuting the underlying list, up to
permutation. -/
theorem map_sublistsLen_perm :
    ∀ {l₁ l₂ : List Card}, l₁.Perm l₂ →
      ∀ (n : Nat) (f : List Card → Nat × List Nat),
        (∀ a b : List Card, a.Perm b → f a = f b) →
        ((l₁.sublistsLen n).map f).Perm ((l₂.sublistsLen n).map f) := by
  intro l₁ l₂ h
  induction h with
  | nil => intro n f hf; exact List.Perm.refl _
  | cons a h ih =>
    intro n f hf
    match n with
    | 0 => simp
    | n + 1 =>
      rw [List.sublistsLen_succ_cons, List.sublistsLen_succ_cons,
        List.map_append, List.map_append]
      refine (ih (n + 1) f hf).append ?_
      rw [List.map_map, List.map_map]
      exact ih n (f ∘ (a :: ·)) (fun u v huv => hf _ _ (huv.cons a))
  | swap a b l =>
    intro n f hf
    match n with
    | 0 => simp
    | 1 =>
      simp only [List.sublistsLen_succ_cons, List.sublistsLen_zero,
        List.map_append, List.map_map, List.map_cons, List.map_nil, Function.comp]
      refine Multiset.coe_eq_coe.mp ?_
      simp only [← Multiset.coe_add]
      simp [add_comm, add_left_comm, add_assoc]
    | n + 2 =>
      simp only [List.sublistsLen_succ_cons, List.map_append, List.map_map]
      have hD : (l.sublistsLen n).map (f ∘ List.cons b ∘ List.cons a) =
          (l.sublistsLen n).map (f ∘ List.cons a ∘ List.cons b) :=
        List.map_congr_left (fun u _ => hf _ _ (List.Perm.swap _ _ _))
      refine Multiset.coe_eq_coe.mp ?_
      simp only [← Multiset.coe_add]
      rw [hD]
      abel
  | trans h₁ h₂ ih₁ ih₂ =>
    intro n f hf
    exact (ih₁ n f hf).trans (ih₂ n f hf)

/-- `evaluate_hand` is invariant under reordering of the input cards: the
set of 5-card combinations is permuted, each combination evaluates the same,
and the running-best fold computes the maximum, which is order-independent. -/
theorem evaluateHand_perm {l₁ l₂ : List Card} (h : l₁.Perm l₂) :
    evaluateHand l₁ = evaluateHand l₂ := by
  unfold evaluateHand
  rw [h.length_eq]
  by_cases hlen : l₂.length < 5
  · rw [if_pos hlen, if_pos hlen]
  · rw [if_neg hlen, if_neg hlen]
    have hp := map_sublistsLen_perm h 5 evaluateFiveCards
      (fun u v huv => evaluateFiveCards_perm huv)
    have e₁ : ∀ l : List Card, (l.sublistsLen 5).foldl
        (fun best combo =>
          let e := evaluateFiveCards combo
          if keyGt e best then e else best) ((0 : Nat), ([] : List Nat)) =
        ((l.sublistsLen 5).map evaluateFiveCards).foldl
          (fun best e => if keyGt e best then e else best) (0, []) := by
      intro l
      rw [List.foldl_map]
    rw [e₁ l₁, e₁ l₂]
    exact hp.foldl_eq' (fun x _ y _ z => keyMax_rightComm z x y) (0, [])

/-- **C9**.  Evaluator permutation invariance: for every list of 5 to 7
cards and every reordering of it, `evaluate_hand` returns the same
`(category, tiebreak)` pair. -/
theorem c9_evaluate_perm_invariant (l₁ l₂ : List Card) (h : l₁.Perm l₂)
    (_h5 : 5 ≤ l₁.length) (_h7 : l₁.length ≤ 7) :
    evaluateHand l₁ = evaluateHand l₂ :=
  evaluateHand_perm h

/-- **C9** witness: the 5-card wheel evaluated against its reversal. -/
theorem c9_evaluate_perm_witness :
    (wheelCards.Perm wheelCards.reverse) ∧ (5 ≤ wheelCards.length) ∧
    (wheelCards.length ≤ 7) ∧
    evaluateHand wheelCards = evaluateHand wheelCards.reverse :=
  ⟨by decide, by decide, by decide,
    c9_evaluate_perm_invariant wheelCards wheelCards.reverse
      (by decide) (by decide) (by decide)⟩

end Poker
